import Mathlib

/-!
Verification development for the sycamore field-type inference engine
(`OpenSearchSchemaFetcher.get_schema`, `OpenSearchSchema.to_schema` in
sycamore/query/schema.py) and the `Limit.local_execute` transform
(sycamore/transforms/basics.py), shallowly embedded in Lean.
-/

/-- A Python runtime value as it can occur in a sampled record field:
an integer, a float, a boolean, a string, or a list of values.
Floats carry their rendered decimal text (the result of Python str/repr on
them), since the engine never computes with them, only classifies and
stringifies them. -/
inductive PyVal where
  | int (n : Int)
  | float (text : String)
  | bool (b : Bool)
  | str (s : String)
  | list (xs : List PyVal)

/-- The runtime type tag of a value, the result of Python type(v) restricted
to the types the engine distinguishes. -/
inductive PyType where
  | int
  | float
  | bool
  | str
  | list
deriving DecidableEq

/-- type(v) for a sample value. -/
def typeOf : PyVal → PyType
  | .int _ => .int
  | .float _ => .float
  | .bool _ => .bool
  | .str _ => .str
  | .list _ => .list

mutual

/-- Python str(v): strings render bare, lists render bracketed with
repr-rendered elements joined by a comma and a space. -/
def pyStr : PyVal → String
  | .int n => toString n
  | .float t => t
  | .bool b => if b then "True" else "False"
  | .str s => s
  | .list xs => "[" ++ pyReprList xs ++ "]"

/-- Python repr(v): like str(v) except strings are quoted.  (Strings are
modelled without embedded quote characters, so repr quotes with a plain
single quote and no escaping.) -/
def pyRepr : PyVal → String
  | .int n => toString n
  | .float t => t
  | .bool b => if b then "True" else "False"
  | .str s => "'" ++ s ++ "'"
  | .list xs => "[" ++ pyReprList xs ++ "]"

/-- The comma-joined repr of a list's elements. -/
def pyReprList : List PyVal → String
  | [] => ""
  | [x] => pyRepr x
  | x :: y :: xs => pyRepr x ++ ", " ++ pyReprList (y :: xs)

end

/-- Python key.startswith(pre). -/
def pyStartsWith (s pre : String) : Bool :=
  pre.data.isPrefixOf s.data

/-- Python key.endswith(suf). -/
def pyEndsWith (s suf : String) : Bool :=
  suf.data.reverse.isPrefixOf s.data.reverse

/-- The outcome of dotted_lookup(sample["_source"], key) for one sampled
record and one field path.  Modelled from the spec: dotted_lookup itself
(sycamore/utils/nested.py) is not part of the excerpt; per the spec a lookup
either fails structurally (the dotted path cannot be resolved against the
record's shape, surfacing as the KeyError that get_schema catches), resolves
to null/absent, or resolves to a value. -/
inductive LookupResult where
  | err
  | null
  | val (v : PyVal)

/-- A sampled record, abstracted to the lookup outcome it yields for each
field path. -/
def SampleRecord : Type := String → LookupResult

/-- OpenSearchSchemaFetcher.NUM_EXAMPLE_VALUES. -/
def NUM_EXAMPLE_VALUES : Nat := 5

/-- The per-field local state of get_schema's inner loop: the samples set
(modelled as an insertion-ordered duplicate-free list of strings), the
current sample_type (None until the first non-null value), whether this
key is in the local warnings dict, and how many warnings have been logged
for it. -/
structure WalkState where
  samples : List String
  sample_type : Option PyType
  warned : Bool
  warnCount : Nat
deriving DecidableEq

/-- The initial per-field state: samples = set(), sample_type = None,
warnings = {}. -/
def initWalkState : WalkState :=
  { samples := [], sample_type := none, warned := false, warnCount := 0 }

/-- samples.add(x): a set insertion, modelled on the ordered list. -/
def setAdd (s : List String) (x : String) : List String :=
  if x ∈ s then s else s ++ [x]

/-- A set comprehension \x7bf(x) for x in s\x7d, modelled on the ordered list. -/
def setImage (f : String → String) (s : List String) : List String :=
  (s.map f).dedup

/-- One execution of the body of get_schema's type-reconciliation block for
a non-null sample_value v, from the state st: sets sample_type on first
value, otherwise applies the promotion rules (int→float upgrade, float⊇int,
wrap scalar when current type is list, promote to list rewriting existing
examples, demote to str on any other mismatch logging one warning per key),
then adds str(sample_value) to the samples set. -/
def stepVal (st : WalkState) (v : PyVal) : WalkState :=
  match st.sample_type with
  | none =>
      { st with sample_type := some (typeOf v), samples := setAdd st.samples (pyStr v) }
  | some ty =>
      let t := typeOf v
      if ty = .int ∧ t = .float then
        { st with sample_type := some t, samples := setAdd st.samples (pyStr v) }
      else if ty = .float ∧ t = .int then
        { st with samples := setAdd st.samples (pyStr v) }
      else if ty = .list ∧ t ≠ .list then
        { st with samples := setAdd st.samples (pyStr (PyVal.list [v])) }
      else if ty ≠ .list ∧ t = .list then
        { st with sample_type := some t,
                  samples := setAdd (setImage (fun x => pyStr (PyVal.list [PyVal.str x])) st.samples) (pyStr v) }
      else if ty ≠ t then
        { sample_type := some .str,
          samples := setAdd (setImage (fun x => pyStr (PyVal.str x)) st.samples) (pyStr v),
          warned := true,
          warnCount := if st.warned then st.warnCount else st.warnCount + 1 }
      else
        { st with samples := setAdd st.samples (pyStr v) }

/-- The per-field walk over the lookup results of the sample, in sample
order: stops before examining a further sample once the samples set has
NUM_EXAMPLE_VALUES entries, skips null values, folds non-null values with
stepVal, and aborts (second component true, the KeyError path) on a
structural lookup failure. -/
def walkField : WalkState → List LookupResult → WalkState × Bool
  | st, [] => (st, false)
  | st, r :: rest =>
      if NUM_EXAMPLE_VALUES ≤ st.samples.length then (st, false)
      else
        match r with
        | .err => (st, true)
        | .null => walkField st rest
        | .val v => walkField (stepVal st v) rest

/-- The full walk for one field path over the whole random sample. -/
def processField (random_sample : List SampleRecord) (key : String) : WalkState × Bool :=
  walkField initWalkState (random_sample.map (fun r => r key))

/-- Modelled from the spec: sycamore.schema.SchemaField (the excerpt only
imports it).  A schema entry carries the field's name, its type rendered as
a string, an optional human description, and an optional bounded list of
stringified example values ("no examples" for the synthetic field). -/
structure SchemaField where
  name : String
  field_type : String
  description : Option String
  examples : Option (List String)
deriving DecidableEq

/-- Modelled from the spec: sycamore.schema.Schema, the legacy-conversion
target — a collection of SchemaField entries. -/
structure Schema where
  fields : List SchemaField
deriving DecidableEq

/-- The deprecated OpenSearchSchema: a mapping from field name to SchemaField,
modelled as an insertion-ordered association list (Python dicts preserve
insertion order). -/
structure OpenSearchSchema where
  fields : List (String × SchemaField)

/-- Python dict assignment d[k] = v on an insertion-ordered dict: replaces
the value in place when the key is present, appends otherwise. -/
def dictInsert {α : Type} : List (String × α) → String → α → List (String × α)
  | [], k, v => [(k, v)]
  | (k', v') :: rest, k, v =>
      if k' = k then (k, v) :: rest else (k', v') :: dictInsert rest k v

/-- Python str(sample_type) on the Optional[type] held by the walk. -/
def strFieldType : Option PyType → String
  | none => "None"
  | some .int => "<class 'int'>"
  | some .float => "<class 'float'>"
  | some .bool => "<class 'bool'>"
  | some .str => "<class 'str'>"
  | some .list => "<class 'list'>"

/-- The synthetic full-text entry inserted into the result before any path
is processed: OpenSearchSchemaField(field_type="<class 'str'>",
description="Can be assumed to have all other details"), whose name keeps
the OpenSearchSchemaField default "default" and whose examples are absent. -/
def text_representation_field : SchemaField :=
  { name := "default", field_type := "<class 'str'>",
    description := some "Can be assumed to have all other details", examples := none }

/-- The entry emitted for a sampled field:
OpenSearchSchemaField(field_type=str(sample_type), examples=list(samples)). -/
def sampledField (st : WalkState) : SchemaField :=
  { name := "default", field_type := strFieldType st.sample_type,
    description := none, examples := some st.samples }

/-- get_schema's loop over the keys of the metadata listing, threading the
result dict and the chronological list of warning-logged keys: each key is
skipped when it ends in ".keyword" or does not start with "properties.",
otherwise its walk runs; its warnings are logged either way, and the key is
entered into the result dict exactly when the walk did not abort on a
structural lookup failure and collected at least one sample. -/
def processKeys (random_sample : List SampleRecord) :
    List (String × SchemaField) × List String → List String →
    List (String × SchemaField) × List String
  | acc, [] => acc
  | acc, key :: rest =>
      if pyEndsWith key ".keyword" then processKeys random_sample acc rest
      else if ¬ pyStartsWith key "properties." then processKeys random_sample acc rest
      else
        let res := processField random_sample key
        let warns := acc.2 ++ List.replicate res.1.warnCount key
        if res.2 then processKeys random_sample (acc.1, warns) rest
        else if 0 < res.1.samples.length then
          processKeys random_sample (dictInsert acc.1 key (sampledField res.1), warns) rest
        else processKeys random_sample (acc.1, warns) rest

/-- OpenSearchSchemaFetcher.get_schema, shallowly embedded: takes the key
listing of the first index's field mappings and the random sample (each
record abstracted to its per-key lookup outcomes), returns the resulting
OpenSearchSchema — seeded with the synthetic text_representation entry —
paired with the list of keys for which a type-conflict warning was logged,
in logging order. -/
def get_schema (listing : List String) (random_sample : List SampleRecord) :
    OpenSearchSchema × List String :=
  let res := processKeys random_sample
    ([("text_representation", text_representation_field)], []) listing
  (⟨res.1⟩, res.2)

/-- An attribute value inside a SchemaField.dict() kwargs dictionary. -/
inductive AttrVal where
  | strA (v : String)
  | optStrA (v : Option String)
  | optListA (v : Option (List String))

/-- field.dict(): the pydantic attribute dictionary of a SchemaField. -/
def SchemaField.dict (f : SchemaField) : List (String × AttrVal) :=
  [("name", .strA f.name), ("field_type", .strA f.field_type),
   ("description", .optStrA f.description), ("examples", .optListA f.examples)]

/-- SchemaField(**kwargs): pydantic construction from a kwargs dictionary,
falling back to the field defaults when a key is absent or ill-typed. -/
def fieldOfDict (d : List (String × AttrVal)) : SchemaField :=
  { name := match List.lookup "name" d with | some (.strA v) => v | _ => "default",
    field_type := match List.lookup "field_type" d with | some (.strA v) => v | _ => "",
    description := match List.lookup "description" d with | some (.optStrA v) => v | _ => none,
    examples := match List.lookup "examples" d with | some (.optListA v) => v | _ => none }

/-- OpenSearchSchema.to_schema: for each (field_name, field) entry builds
SchemaField(**\x7b**field.dict(), "name": field_name\x7d) and collects the
results into a Schema. -/
def OpenSearchSchema.to_schema (s : OpenSearchSchema) : Schema :=
  ⟨s.fields.map (fun p => fieldOfDict (dictInsert (SchemaField.dict p.2) "name" (.strA p.1)))⟩

/-- The spec's description of to_schema, stated directly: re-key the mapping
by injecting each entry's map key as its name attribute, all other
attributes unchanged. -/
def rekeyedFieldsSpec (s : OpenSearchSchema) : List SchemaField :=
  s.fields.map (fun p => { p.2 with name := p.1 })

/-- A document in a docset, abstracted to whether it is a MetadataDocument
plus an identity. -/
structure Doc where
  isMetadataDocument : Bool
  id : Nat
deriving DecidableEq

/-- The loop body of Limit.local_execute: metadata documents are passed
over without counting; a non-metadata document increments the count, breaks
out of the loop when the count exceeds the limit, and is appended
otherwise. -/
def local_execute_go (limit : Int) (count : Int) : List Doc → List Doc
  | [] => []
  | doc :: rest =>
      if doc.isMetadataDocument then local_execute_go limit count rest
      else if limit < count + 1 then []
      else doc :: local_execute_go limit (count + 1) rest

/-- Limit.local_execute(all_docs), with the instance's _limit made an
explicit argument. -/
def local_execute (limit : Int) (all_docs : List Doc) : List Doc :=
  local_execute_go limit 0 all_docs

/-! ### Helper lemmas about the samples set model -/

lemma setAdd_length (s : List String) (x : String) :
    (setAdd s x).length ≤ s.length + 1 := by
  unfold setAdd
  split
  · exact Nat.le_succ _
  · simp

lemma setImage_length (f : String → String) (s : List String) :
    (setImage f s).length ≤ s.length := by
  unfold setImage
  calc (s.map f).dedup.length ≤ (s.map f).length := (List.dedup_sublist _).length_le
    _ = s.length := s.length_map f

lemma mem_setAdd_self (s : List String) (x : String) : x ∈ setAdd s x := by
  unfold setAdd
  split
  · assumption
  · simp

lemma mem_setAdd_of_mem {s : List String} {y : String} (x : String) (h : y ∈ s) :
    y ∈ setAdd s x := by
  unfold setAdd
  split
  · exact h
  · simp [h]

lemma mem_setImage {s : List String} {y : String} (f : String → String) (h : y ∈ s) :
    f y ∈ setImage f s := by
  unfold setImage
  rw [List.mem_dedup]
  exact List.mem_map_of_mem f h

/-! ### Walk-state invariants -/

lemma stepVal_samples_length (st : WalkState) (v : PyVal) :
    (stepVal st v).samples.length ≤ st.samples.length + 1 := by
  unfold stepVal
  rcases st.sample_type with _ | ty
  · exact setAdd_length _ _
  · dsimp only
    repeat' split
    all_goals
      refine Nat.le_trans (setAdd_length _ _) ?_
      first
      | exact Nat.le_refl _
      | exact Nat.succ_le_succ (setImage_length _ _)

/-- The per-key warning discipline: the number of warnings logged never
exceeds one, and is zero while the key is not yet in the warnings dict. -/
def WarnInv (st : WalkState) : Prop :=
  st.warnCount ≤ (if st.warned then 1 else 0)

lemma stepVal_warnInv {st : WalkState} (v : PyVal) (h : WarnInv st) :
    WarnInv (stepVal st v) := by
  unfold WarnInv at *
  unfold stepVal
  rcases st.sample_type with _ | ty
  · exact h
  · dsimp only
    repeat' split
    all_goals simp_all

lemma stepVal_type_list {st : WalkState} (v : PyVal)
    (h : st.sample_type = some PyType.list) :
    (stepVal st v).sample_type = some PyType.list := by
  unfold stepVal
  rw [h]
  dsimp only
  repeat' split
  all_goals simp_all

lemma stepVal_type_str {st : WalkState} (v : PyVal)
    (h : st.sample_type = some PyType.str) :
    (stepVal st v).sample_type = some PyType.str ∨
      ((stepVal st v).sample_type = some PyType.list ∧ typeOf v = PyType.list) := by
  unfold stepVal
  rw [h]
  dsimp only
  repeat' split
  all_goals simp_all

lemma walkField_samples_le {st : WalkState} (rs : List LookupResult)
    (h : st.samples.length ≤ NUM_EXAMPLE_VALUES) :
    (walkField st rs).1.samples.length ≤ NUM_EXAMPLE_VALUES := by
  induction rs generalizing st with
  | nil => exact h
  | cons r rest ih =>
      unfold walkField
      split
      · exact h
      · rename_i hlt
        match r with
        | .err => exact h
        | .null => exact ih h
        | .val v =>
            refine ih ?_
            have := stepVal_samples_length st v
            omega

lemma walkField_stop {st : WalkState} (rs : List LookupResult)
    (h : NUM_EXAMPLE_VALUES ≤ st.samples.length) :
    walkField st rs = (st, false) := by
  cases rs with
  | nil => rfl
  | cons r rest =>
      unfold walkField
      simp [h]

lemma walkField_warnInv {st : WalkState} (rs : List LookupResult) (h : WarnInv st) :
    WarnInv (walkField st rs).1 := by
  induction rs generalizing st with
  | nil => exact h
  | cons r rest ih =>
      unfold walkField
      split
      · exact h
      · match r with
        | .err => exact h
        | .null => exact ih h
        | .val v => exact ih (stepVal_warnInv v h)

lemma walkField_type_list {st : WalkState} (rs : List LookupResult)
    (h : st.sample_type = some PyType.list) :
    (walkField st rs).1.sample_type = some PyType.list := by
  induction rs generalizing st with
  | nil => exact h
  | cons r rest ih =>
      unfold walkField
      split
      · exact h
      · match r with
        | .err => exact h
        | .null => exact ih h
        | .val v => exact ih (stepVal_type_list v h)

lemma walkField_type_str {st : WalkState} (rs : List LookupResult)
    (h : st.sample_type = some PyType.str) :
    (walkField st rs).1.sample_type = some PyType.str ∨
      (walkField st rs).1.sample_type = some PyType.list := by
  induction rs generalizing st with
  | nil => exact Or.inl h
  | cons r rest ih =>
      unfold walkField
      split
      · exact Or.inl h
      · match r with
        | .err => exact Or.inl h
        | .null => exact ih h
        | .val v =>
            rcases stepVal_type_str v h with h' | ⟨h', _⟩
            · exact ih h'
            · exact Or.inr (walkField_type_list rest h')

/-! ### Dictionary and assembly lemmas -/

lemma mem_dictInsert_iff {α : Type} (d : List (String × α)) (k key : String) (v : α) :
    (∃ f, (key, f) ∈ dictInsert d k v) ↔ (∃ f, (key, f) ∈ d) ∨ key = k := by
  induction d with
  | nil => simp [dictInsert, eq_comm]
  | cons p rest ih =>
      obtain ⟨k', v'⟩ := p
      unfold dictInsert
      split
      · rename_i hk
        subst hk
        simp only [List.mem_cons, Prod.mk.injEq]
        constructor
        · rintro ⟨f, ⟨h1, h2⟩ | h⟩
          · exact Or.inr h1
          · exact Or.inl ⟨f, Or.inr h⟩
        · rintro (⟨f, ⟨h1, h2⟩ | h⟩ | h1)
          · exact ⟨v, Or.inl ⟨h1, rfl⟩⟩
          · exact ⟨f, Or.inr h⟩
          · exact ⟨v, Or.inl ⟨h1, rfl⟩⟩
      · rename_i hk
        simp only [List.mem_cons, Prod.mk.injEq]
        constructor
        · rintro ⟨f, ⟨h1, h2⟩ | h⟩
          · exact Or.inl ⟨f, Or.inl ⟨h1, h2⟩⟩
          · rcases ih.mp ⟨f, h⟩ with ⟨g, hg⟩ | h'
            · exact Or.inl ⟨g, Or.inr hg⟩
            · exact Or.inr h'
        · rintro (⟨f, ⟨h1, h2⟩ | h⟩ | h1)
          · exact ⟨f, Or.inl ⟨h1, h2⟩⟩
          · obtain ⟨g, hg⟩ := ih.mpr (Or.inl ⟨f, h⟩)
            exact ⟨g, Or.inr hg⟩
          · obtain ⟨g, hg⟩ := ih.mpr (Or.inr h1)
            exact ⟨g, Or.inr hg⟩

lemma mem_dictInsert_of_mem {α : Type} {d : List (String × α)} {p : String × α}
    (k : String) (v : α) (h : p ∈ dictInsert d k v) : p ∈ d ∨ p.2 = v := by
  induction d with
  | nil => simp [dictInsert] at h; simp [h]
  | cons q rest ih =>
      obtain ⟨k', v'⟩ := q
      unfold dictInsert at h
      split at h
      · rcases List.mem_cons.mp h with h | h
        · simp [h]
        · exact Or.inl (List.mem_cons_of_mem _ h)
      · rcases List.mem_cons.mp h with h | h
        · exact Or.inl (h ▸ List.mem_cons_self _ _)
        · rcases ih h with h' | h'
          · exact Or.inl (List.mem_cons_of_mem _ h')
          · exact Or.inr h'

lemma lookup_dictInsert_ne {α : Type} (d : List (String × α)) {k key : String} (v : α)
    (h : key ≠ k) : List.lookup key (dictInsert d k v) = List.lookup key d := by
  have hbe : (key == k) = false := beq_eq_false_iff_ne.mpr h
  induction d with
  | nil => simp [dictInsert, List.lookup, hbe]
  | cons p rest ih =>
      obtain ⟨k', v'⟩ := p
      unfold dictInsert
      split
      · rename_i hk
        subst hk
        simp [List.lookup, hbe]
      · simp only [List.lookup]
        rcases hbe2 : (key == k') with _ | _
        · simp only [ih]
        · rfl

/-- A metadata-listing key survives get_schema's filters: it does not end
with ".keyword" and starts with "properties.". -/
def eligibleKey (key : String) : Prop :=
  pyEndsWith key ".keyword" = false ∧ pyStartsWith key "properties." = true

/-- The walk for a key completed without a structural lookup failure and
collected at least one sample value. -/
def keyEmittedOK (sample : List SampleRecord) (key : String) : Prop :=
  (processField sample key).2 = false ∧ (processField sample key).1.samples ≠ []

lemma pyStartsWith_properties_ne_tr {k : String}
    (h : pyStartsWith k "properties." = true) : k ≠ "text_representation" := by
  intro hk
  subst hk
  exact absurd h (by decide)

/-- Key membership in the dict built by processKeys: a key has an entry iff
it already had one in the accumulator, or it occurs in the listing, passes
the filters, and its own walk succeeded with at least one sample. -/
lemma processKeys_mem_iff (sample : List SampleRecord) (listing : List String)
    (acc : List (String × SchemaField) × List String) (key : String) :
    (∃ f, (key, f) ∈ (processKeys sample acc listing).1) ↔
      (∃ f, (key, f) ∈ acc.1) ∨
        (key ∈ listing ∧ eligibleKey key ∧ keyEmittedOK sample key) := by
  induction listing generalizing acc with
  | nil => simp [processKeys]
  | cons k' rest ih =>
      unfold processKeys
      by_cases h1 : pyEndsWith k' ".keyword" = true
      · rw [if_pos h1, ih]
        have hk : key = k' → ¬ (eligibleKey key ∧ keyEmittedOK sample key) := by
          rintro rfl ⟨⟨he, _⟩, _⟩
          exact absurd h1 (by simp [he])
        simp only [List.mem_cons]
        tauto
      · rw [if_neg h1]
        by_cases h2 : ¬ pyStartsWith k' "properties." = true
        · rw [if_pos h2, ih]
          have hk : key = k' → ¬ (eligibleKey key ∧ keyEmittedOK sample key) := by
            rintro rfl ⟨⟨_, hs⟩, _⟩
            exact h2 hs
          simp only [List.mem_cons]
          tauto
        · rw [if_neg h2]
          by_cases h3 : (processField sample k').2 = true
          · rw [if_pos h3]
            rw [ih]
            have hk : key = k' → ¬ (eligibleKey key ∧ keyEmittedOK sample key) := by
              rintro rfl ⟨_, ⟨hf, _⟩⟩
              rw [h3] at hf
              exact Bool.true_eq_false ▸ hf
            simp only [List.mem_cons]
            tauto
          · rw [if_neg h3]
            by_cases h4 : 0 < (processField sample k').1.samples.length
            · rw [if_pos h4]
              rw [ih, mem_dictInsert_iff]
              have hk : key = k' → (eligibleKey key ∧ keyEmittedOK sample key) := by
                rintro rfl
                refine ⟨⟨?_, ?_⟩, ?_, ?_⟩
                · exact Bool.not_eq_true _ ▸ h1
                · exact of_not_not h2
                · exact Bool.not_eq_true _ ▸ h3
                · exact List.ne_nil_of_length_pos h4
              simp only [List.mem_cons]
              tauto
            · rw [if_neg h4]
              rw [ih]
              have hk : key = k' → ¬ (eligibleKey key ∧ keyEmittedOK sample key) := by
                rintro rfl ⟨_, ⟨_, hs⟩⟩
                exact hs (List.length_eq_zero.mp (Nat.eq_zero_of_not_pos h4))
              simp only [List.mem_cons]
              tauto

/-- Every entry of the dict built by processKeys either was in the
accumulator or is a sampledField of a completed walk; hence its examples
list (if any) has at most NUM_EXAMPLE_VALUES entries. -/
lemma processKeys_examples_le (sample : List SampleRecord) (listing : List String)
    (acc : List (String × SchemaField) × List String)
    (hacc : ∀ p ∈ acc.1, ∀ ex, p.2.examples = some ex → ex.length ≤ NUM_EXAMPLE_VALUES) :
    ∀ p ∈ (processKeys sample acc listing).1, ∀ ex,
      p.2.examples = some ex → ex.length ≤ NUM_EXAMPLE_VALUES := by
  induction listing generalizing acc with
  | nil => exact hacc
  | cons k' rest ih =>
      unfold processKeys
      by_cases h1 : pyEndsWith k' ".keyword" = true
      · rw [if_pos h1]
        exact ih acc hacc
      · rw [if_neg h1]
        by_cases h2 : ¬ pyStartsWith k' "properties." = true
        · rw [if_pos h2]
          exact ih acc hacc
        · rw [if_neg h2]
          by_cases h3 : (processField sample k').2 = true
          · rw [if_pos h3]
            exact ih _ hacc
          · rw [if_neg h3]
            by_cases h4 : 0 < (processField sample k').1.samples.length
            · rw [if_pos h4]
              refine ih _ ?_
              intro p hp ex hex
              rcases mem_dictInsert_of_mem _ _ hp with h | h
              · exact hacc p h ex hex
              · rw [h] at hex
                unfold sampledField at hex
                simp only [Option.some.injEq] at hex
                subst hex
                exact walkField_samples_le _ (by simp [initWalkState])
            · rw [if_neg h4]
              exact ih _ hacc

/-- processKeys never touches the entry of a key that does not start with
"properties."; in particular the synthetic text_representation entry is
preserved verbatim. -/
lemma processKeys_lookup_preserved (sample : List SampleRecord) (listing : List String)
    (acc : List (String × SchemaField) × List String) (key : String)
    (hkey : ¬ pyStartsWith key "properties." = true) :
    List.lookup key (processKeys sample acc listing).1 = List.lookup key acc.1 := by
  induction listing generalizing acc with
  | nil => rfl
  | cons k' rest ih =>
      unfold processKeys
      by_cases h1 : pyEndsWith k' ".keyword" = true
      · rw [if_pos h1]
        exact ih acc
      · rw [if_neg h1]
        by_cases h2 : ¬ pyStartsWith k' "properties." = true
        · rw [if_pos h2]
          exact ih acc
        · rw [if_neg h2]
          by_cases h3 : (processField sample k').2 = true
          · rw [if_pos h3]
            exact ih _
          · rw [if_neg h3]
            by_cases h4 : 0 < (processField sample k').1.samples.length
            · rw [if_pos h4]
              rw [ih _]
              refine lookup_dictInsert_ne _ _ ?_
              intro hk
              subst hk
              exact hkey (of_not_not h2)
            · rw [if_neg h4]
              exact ih _

lemma processField_warnCount_le_one (sample : List SampleRecord) (key : String) :
    (processField sample key).1.warnCount ≤ 1 := by
  have h : WarnInv (processField sample key).1 :=
    walkField_warnInv _ (by simp [WarnInv, initWalkState])
  unfold WarnInv at h
  split at h
  · exact h
  · omega

/-- The warning log grows by at most one occurrence of a key per occurrence
of that key in the listing. -/
lemma processKeys_warn_count (sample : List SampleRecord) (listing : List String)
    (acc : List (String × SchemaField) × List String) (key : String)
    (hnd : listing.Nodup) :
    ((processKeys sample acc listing).2.count key) ≤
      acc.2.count key + (if key ∈ listing then 1 else 0) := by
  induction listing generalizing acc with
  | nil => simp [processKeys]
  | cons k' rest ih =>
      have hnd' : rest.Nodup := hnd.of_cons
      have hk'notin : k' ∉ rest := (List.nodup_cons.mp hnd).1
      have hmono : (if key ∈ rest then 1 else 0) ≤ (if key ∈ k' :: rest then 1 else 0) := by
        by_cases h : key ∈ rest
        · simp [h, List.mem_cons_of_mem]
        · simp [h]
      have happ : ∀ wc : Nat, wc ≤ 1 →
          ((acc.2 ++ List.replicate wc k').count key) +
              (if key ∈ rest then 1 else 0) ≤
            acc.2.count key + (if key ∈ k' :: rest then 1 else 0) := by
        intro wc hwc
        rw [List.count_append, List.count_replicate]
        by_cases hk : key = k'
        · subst hk
          have hnr : ¬ key ∈ rest := hk'notin
          simp [hnr, hwc]
        · have hbf : (k' == key) = false := beq_eq_false_iff_ne.mpr (Ne.symm hk)
          rw [hbf]
          simp only [if_false, List.mem_cons]
          by_cases h : key ∈ rest
          · simp [h, hk]
          · simp [h, hk]
      unfold processKeys
      by_cases h1 : pyEndsWith k' ".keyword" = true
      · rw [if_pos h1]
        exact le_trans (ih _ hnd') (by omega)
      · rw [if_neg h1]
        by_cases h2 : ¬ pyStartsWith k' "properties." = true
        · rw [if_pos h2]
          exact le_trans (ih _ hnd') (by omega)
        · rw [if_neg h2]
          by_cases h3 : (processField sample k').2 = true
          · rw [if_pos h3]
            exact le_trans (ih _ hnd')
              (happ _ (processField_warnCount_le_one sample k'))
          · rw [if_neg h3]
            by_cases h4 : 0 < (processField sample k').1.samples.length
            · rw [if_pos h4]
              exact le_trans (ih _ hnd')
                (happ _ (processField_warnCount_le_one sample k'))
            · rw [if_neg h4]
              exact le_trans (ih _ hnd')
                (happ _ (processField_warnCount_le_one sample k'))

/-! ### Concrete scenario inputs -/

/-- A sampled record that yields the outcome r for one key and null for
every other key. -/
def recOf (key : String) (r : LookupResult) : SampleRecord :=
  fun k => if k = key then r else LookupResult.null

/-- The spec scenario for properties.age: values 5, 7.5, 3. -/
def ageSample : List SampleRecord :=
  [recOf "properties.age" (.val (.int 5)),
   recOf "properties.age" (.val (.float "7.5")),
   recOf "properties.age" (.val (.int 3))]

/-- The spec scenario for properties.tag: "a" then ["b","c"]. -/
def tagSample : List SampleRecord :=
  [recOf "properties.tag" (.val (.str "a")),
   recOf "properties.tag" (.val (.list [.str "b", .str "c"]))]

/-- The spec scenario for properties.x: 1 then "foo". -/
def xSample : List SampleRecord :=
  [recOf "properties.x" (.val (.int 1)), recOf "properties.x" (.val (.str "foo"))]

/-! ### Claim theorems -/

/-- C1 (counterexample): the claim as stated is false — in the run over
the sample values 1, "a", [2] for a single field, after the first two
samples the field's type has been demoted to str, yet continuing the same
run with the third, list-typed sample replaces str by list (the
"sample_type is not list and t is list" branch precedes the incompatibility
check), so a current type of string is not final. -/
theorem C1_counterexample :
    (walkField initWalkState [.val (.int 1), .val (.str "a")]).1.sample_type
        = some PyType.str ∧
    walkField initWalkState [.val (.int 1), .val (.str "a"), .val (.list [.int 2])]
      = walkField (walkField initWalkState [.val (.int 1), .val (.str "a")]).1
          [.val (.list [.int 2])] ∧
    (walkField initWalkState
        [.val (.int 1), .val (.str "a"), .val (.list [.int 2])]).1.sample_type
      = some PyType.list := by
  decide

/-- C1 (amended): once a field's inferred type has been promoted to list it
never changes again within the run; once it is str (by demotion or
otherwise) no later sample narrows it — the only possible later change is a
promotion to list upon observing a list value. -/
theorem C1_upgrade_monotonicity (st : WalkState) (rs : List LookupResult) :
    (st.sample_type = some PyType.list →
      (walkField st rs).1.sample_type = some PyType.list) ∧
    (st.sample_type = some PyType.str →
      (walkField st rs).1.sample_type = some PyType.str ∨
        (walkField st rs).1.sample_type = some PyType.list) :=
  ⟨fun h => walkField_type_list rs h, fun h => walkField_type_str rs h⟩

/-- C1 witness: the amended monotonicity at a concrete state and sample. -/
theorem C1_upgrade_monotonicity_witness :
    (walkField { samples := ["[1]"], sample_type := some PyType.list,
                 warned := false, warnCount := 0 } [.val (.int 7)]).1.sample_type
        = some PyType.list ∧
    ((walkField { samples := ["a"], sample_type := some PyType.str,
                  warned := false, warnCount := 0 } [.val (.int 7)]).1.sample_type
        = some PyType.str ∨
      (walkField { samples := ["a"], sample_type := some PyType.str,
                   warned := false, warnCount := 0 } [.val (.int 7)]).1.sample_type
        = some PyType.list) :=
  ⟨(C1_upgrade_monotonicity _ _).1 rfl, (C1_upgrade_monotonicity _ _).2 rfl⟩

/-- C2: every field emitted by get_schema carries at most
NUM_EXAMPLE_VALUES (5) distinct stringified examples, and once a field's
samples set has 5 entries the per-field walk examines no further samples
(it returns immediately with the state unchanged). -/
theorem C2_cap_invariant :
    (∀ (listing : List String) (sample : List SampleRecord) (k : String)
        (f : SchemaField), (k, f) ∈ (get_schema listing sample).1.fields →
        ∀ ex, f.examples = some ex → ex.length ≤ NUM_EXAMPLE_VALUES) ∧
    (∀ (st : WalkState) (rs : List LookupResult),
        NUM_EXAMPLE_VALUES ≤ st.samples.length → walkField st rs = (st, false)) := by
  constructor
  · intro listing sample k f hmem ex hex
    refine processKeys_examples_le sample listing
      ([("text_representation", text_representation_field)], []) ?_ (k, f) hmem ex hex
    intro p hp ex' hex'
    simp only [List.mem_singleton] at hp
    rw [hp] at hex'
    simp [text_representation_field] at hex'
  · exact fun st rs h => walkField_stop rs h

/-- C2 witness: the cap at the concrete properties.age run and a concrete
full state. -/
theorem C2_cap_invariant_witness :
    (["5", "7.5", "3"].length ≤ NUM_EXAMPLE_VALUES) ∧
    walkField { samples := ["a", "b", "c", "d", "e"], sample_type := some PyType.str,
                warned := false, warnCount := 0 } [.err]
      = ({ samples := ["a", "b", "c", "d", "e"], sample_type := some PyType.str,
           warned := false, warnCount := 0 }, false) :=
  ⟨C2_cap_invariant.1 ["properties.age"] ageSample "properties.age"
      { name := "default", field_type := "<class 'float'>", description := none,
        examples := some ["5", "7.5", "3"] } (by decide) _ rfl,
   C2_cap_invariant.2 _ [.err] (by decide)⟩

/-- C3: when the current type is a non-list type and a list value arrives,
the type is upgraded to list and every already-collected example string is
rewritten to its singleton-list representation before the new value's
string is added; when the current type is list and a non-list value
arrives, the value is wrapped in a singleton list before being stringified
and added, the type unchanged.  Concretely, sampling "a" then ["b","c"]
for properties.tag yields type list with examples "['a']" and "['b', 'c']". -/
theorem C3_list_promotion :
    (∀ (st : WalkState) (ty : PyType) (v : PyVal),
        st.sample_type = some ty → ty ≠ PyType.list → typeOf v = PyType.list →
        (stepVal st v).sample_type = some PyType.list ∧
        (stepVal st v).samples =
          setAdd (setImage (fun x => pyStr (PyVal.list [PyVal.str x])) st.samples)
            (pyStr v) ∧
        (∀ x ∈ st.samples,
          pyStr (PyVal.list [PyVal.str x]) ∈ (stepVal st v).samples) ∧
        pyStr v ∈ (stepVal st v).samples) ∧
    (∀ (st : WalkState) (v : PyVal),
        st.sample_type = some PyType.list → typeOf v ≠ PyType.list →
        (stepVal st v).sample_type = some PyType.list ∧
        (stepVal st v).samples = setAdd st.samples (pyStr (PyVal.list [v]))) ∧
    (List.lookup "properties.tag" (get_schema ["properties.tag"] tagSample).1.fields =
      some { name := "default", field_type := "<class 'list'>", description := none,
             examples := some ["['a']", "['b', 'c']"] }) := by
  refine ⟨?_, ?_, by decide⟩
  · intro st ty v hst hty hv
    have hbranch : stepVal st v =
        { st with sample_type := some (typeOf v),
                  samples := setAdd
                    (setImage (fun x => pyStr (PyVal.list [PyVal.str x])) st.samples)
                    (pyStr v) } := by
      unfold stepVal
      rw [hst]
      simp [hv, hty]
    rw [hbranch]
    refine ⟨by simp [hv], rfl, ?_, mem_setAdd_self _ _⟩
    intro x hx
    exact mem_setAdd_of_mem _ (mem_setImage _ hx)
  · intro st v hst hv
    have hbranch : stepVal st v =
        { st with samples := setAdd st.samples (pyStr (PyVal.list [v])) } := by
      unfold stepVal
      rw [hst]
      simp [hv]
    rw [hbranch]
    exact ⟨hst, rfl⟩

/-- C3 witness: the two promotion rules at concrete states and the concrete
scenario. -/
theorem C3_list_promotion_witness :
    ((stepVal { samples := ["a"], sample_type := some PyType.str,
                warned := false, warnCount := 0 }
        (PyVal.list [PyVal.str "b", PyVal.str "c"])).sample_type
      = some PyType.list ∧
     (stepVal { samples := ["a"], sample_type := some PyType.str,
                warned := false, warnCount := 0 }
        (PyVal.list [PyVal.str "b", PyVal.str "c"])).samples =
       setAdd (setImage (fun x => pyStr (PyVal.list [PyVal.str x])) ["a"])
         (pyStr (PyVal.list [PyVal.str "b", PyVal.str "c"])) ∧
     (∀ x ∈ ["a"],
       pyStr (PyVal.list [PyVal.str x]) ∈
         (stepVal { samples := ["a"], sample_type := some PyType.str,
                    warned := false, warnCount := 0 }
            (PyVal.list [PyVal.str "b", PyVal.str "c"])).samples) ∧
     pyStr (PyVal.list [PyVal.str "b", PyVal.str "c"]) ∈
       (stepVal { samples := ["a"], sample_type := some PyType.str,
                  warned := false, warnCount := 0 }
          (PyVal.list [PyVal.str "b", PyVal.str "c"])).samples) ∧
    ((stepVal { samples := ["['a']", "['b', 'c']"], sample_type := some PyType.list,
                warned := false, warnCount := 0 } (PyVal.int 3)).sample_type
      = some PyType.list ∧
     (stepVal { samples := ["['a']", "['b', 'c']"], sample_type := some PyType.list,
                warned := false, warnCount := 0 } (PyVal.int 3)).samples =
       setAdd ["['a']", "['b', 'c']"] (pyStr (PyVal.list [PyVal.int 3]))) :=
  ⟨C3_list_promotion.1 _ PyType.str _ rfl (by decide) rfl,
   C3_list_promotion.2.1 _ (PyVal.int 3) rfl (by decide)⟩

/-- C4: a sample whose type disagrees with the current type outside the
recognized upgrade pairs demotes the field to str, keeps every existing
example in its plain string form (str(x) on an already-stringified example
is the identity), adds the new value's string, and logs a warning only if
none was logged yet for this key; over any whole run at most one warning is
logged per field path (listing keys being unique).  Concretely, sampling 1
then "foo" for properties.x yields type str, examples "1" and "foo", and
exactly one logged warning for properties.x.  The walk never raises: the
demotion branch yields an ordinary state and processing continues. -/
theorem C4_type_conflict :
    (∀ (st : WalkState) (ty : PyType) (v : PyVal),
        st.sample_type = some ty → ty ≠ typeOf v →
        ¬(ty = PyType.int ∧ typeOf v = PyType.float) →
        ¬(ty = PyType.float ∧ typeOf v = PyType.int) →
        ty ≠ PyType.list → typeOf v ≠ PyType.list →
        (stepVal st v).sample_type = some PyType.str ∧
        (∀ x ∈ st.samples, x ∈ (stepVal st v).samples) ∧
        pyStr v ∈ (stepVal st v).samples ∧
        (stepVal st v).warnCount =
          (if st.warned then st.warnCount else st.warnCount + 1)) ∧
    (∀ (listing : List String) (sample : List SampleRecord) (key : String),
        listing.Nodup → (get_schema listing sample).2.count key ≤ 1) ∧
    ((get_schema ["properties.x"] xSample).2 = ["properties.x"] ∧
     List.lookup "properties.x" (get_schema ["properties.x"] xSample).1.fields =
       some { name := "default", field_type := "<class 'str'>", description := none,
              examples := some ["1", "foo"] }) := by
  refine ⟨?_, ?_, by decide, by decide⟩
  · intro st ty v hst hne hif hfi hl hvl
    have hbranch : stepVal st v =
        { sample_type := some PyType.str,
          samples := setAdd (setImage (fun x => pyStr (PyVal.str x)) st.samples)
            (pyStr v),
          warned := true,
          warnCount := if st.warned then st.warnCount else st.warnCount + 1 } := by
      unfold stepVal
      rw [hst]
      simp [hif, hfi, hl, hvl, hne]
    rw [hbranch]
    refine ⟨rfl, ?_, mem_setAdd_self _ _, rfl⟩
    intro x hx
    exact mem_setAdd_of_mem _ (mem_setImage (fun x => pyStr (PyVal.str x)) hx)
  · intro listing sample key hnd
    have h := processKeys_warn_count sample listing
      ([("text_representation", text_representation_field)], []) key hnd
    simp only [get_schema]
    refine le_trans h ?_
    simp only [List.count_nil]
    split <;> omega

/-- C4 witness: the demotion rule at a concrete state, the at-most-one
warning bound at the concrete properties.x run. -/
theorem C4_type_conflict_witness :
    ((stepVal { samples := ["1"], sample_type := some PyType.int,
                warned := false, warnCount := 0 } (PyVal.str "foo")).sample_type
        = some PyType.str ∧
     (∀ x ∈ ["1"],
        x ∈ (stepVal { samples := ["1"], sample_type := some PyType.int,
                       warned := false, warnCount := 0 } (PyVal.str "foo")).samples) ∧
     pyStr (PyVal.str "foo") ∈
       (stepVal { samples := ["1"], sample_type := some PyType.int,
                  warned := false, warnCount := 0 } (PyVal.str "foo")).samples ∧
     (stepVal { samples := ["1"], sample_type := some PyType.int,
                warned := false, warnCount := 0 } (PyVal.str "foo")).warnCount =
       (if false then 0 else 0 + 1)) ∧
    (get_schema ["properties.x"] xSample).2.count "properties.x" ≤ 1 :=
  ⟨C4_type_conflict.1 _ PyType.int _ rfl (by decide) (by decide) (by decide)
      (by decide) (by decide),
   C4_type_conflict.2.1 ["properties.x"] xSample "properties.x" (by decide)⟩

/-- C5: an eligible field path gets a schema entry iff walking the sample
for it finished without a structural lookup failure and collected at least
one non-null value; a structural lookup failure reached by the walk makes
the whole field count as no data (its entry is omitted) without affecting
any other key, and a field with no non-null values is likewise silently
omitted.  The right-hand side depends only on the key's own walk, so a
failure for one field never aborts processing of the others, and the walk
is a total function, so nothing propagates to the caller. -/
theorem C5_omission_invariant (listing : List String) (sample : List SampleRecord)
    (key : String) (h1 : pyEndsWith key ".keyword" = false)
    (h2 : pyStartsWith key "properties." = true) :
    (∃ f, (key, f) ∈ (get_schema listing sample).1.fields) ↔
      key ∈ listing ∧ (processField sample key).2 = false ∧
        (processField sample key).1.samples ≠ [] := by
  simp only [get_schema]
  rw [processKeys_mem_iff]
  have hinit : ¬ ∃ f, (key, f) ∈ [("text_representation", text_representation_field)] := by
    rintro ⟨f, hf⟩
    simp only [List.mem_singleton, Prod.mk.injEq] at hf
    exact pyStartsWith_properties_ne_tr h2 hf.1
  have helig : eligibleKey key := ⟨h1, h2⟩
  constructor
  · rintro (h | ⟨hm, _, hok⟩)
    · exact absurd h hinit
    · exact ⟨hm, hok⟩
  · rintro ⟨hm, hok⟩
    exact Or.inr ⟨hm, helig, hok⟩

/-- C5 witness: the equivalence instantiated at the concrete properties.age
run, in both directions. -/
theorem C5_omission_invariant_witness :
    (∃ f, ("properties.age", f) ∈ (get_schema ["properties.age"] ageSample).1.fields) ∧
    ¬ (∃ f, ("properties.nothing", f) ∈
        (get_schema ["properties.nothing"] ageSample).1.fields) :=
  ⟨(C5_omission_invariant ["properties.age"] ageSample "properties.age"
      (by decide) (by decide)).mpr (by decide),
   fun h => by
    have := (C5_omission_invariant ["properties.nothing"] ageSample "properties.nothing"
      (by decide) (by decide)).mp h
    exact absurd this (by decide)⟩

/-- C6: observing a float while the current type is int upgrades the type
to float keeping the collected examples unchanged (the new value's string
is added); observing an int while the current type is float leaves the
type unchanged.  Concretely, sampling 5, 7.5, 3 for properties.age yields
type float with examples "5", "7.5", "3". -/
theorem C6_int_float_promotion :
    (∀ (st : WalkState) (v : PyVal),
        st.sample_type = some PyType.int → typeOf v = PyType.float →
        (stepVal st v).sample_type = some PyType.float ∧
        (stepVal st v).samples = setAdd st.samples (pyStr v)) ∧
    (∀ (st : WalkState) (v : PyVal),
        st.sample_type = some PyType.float → typeOf v = PyType.int →
        (stepVal st v).sample_type = some PyType.float ∧
        (stepVal st v).samples = setAdd st.samples (pyStr v)) ∧
    ((get_schema ["properties.age"] ageSample).1.fields =
      [("text_representation", text_representation_field),
       ("properties.age",
        { name := "default", field_type := "<class 'float'>", description := none,
          examples := some ["5", "7.5", "3"] })]) := by
  refine ⟨?_, ?_, by decide⟩
  · intro st v hst hv
    have hbranch : stepVal st v =
        { st with sample_type := some (typeOf v),
                  samples := setAdd st.samples (pyStr v) } := by
      unfold stepVal
      rw [hst]
      simp [hv]
    rw [hbranch]
    exact ⟨by simp [hv], rfl⟩
  · intro st v hst hv
    have hbranch : stepVal st v =
        { st with samples := setAdd st.samples (pyStr v) } := by
      unfold stepVal
      rw [hst]
      simp [hv]
    rw [hbranch]
    exact ⟨hst, rfl⟩

/-- C6 witness: both upgrade rules at concrete states. -/
theorem C6_int_float_promotion_witness :
    ((stepVal { samples := ["5"], sample_type := some PyType.int,
                warned := false, warnCount := 0 } (PyVal.float "7.5")).sample_type
        = some PyType.float ∧
     (stepVal { samples := ["5"], sample_type := some PyType.int,
                warned := false, warnCount := 0 } (PyVal.float "7.5")).samples
        = setAdd ["5"] (pyStr (PyVal.float "7.5"))) ∧
    ((stepVal { samples := ["5", "7.5"], sample_type := some PyType.float,
                warned := false, warnCount := 0 } (PyVal.int 3)).sample_type
        = some PyType.float ∧
     (stepVal { samples := ["5", "7.5"], sample_type := some PyType.float,
                warned := false, warnCount := 0 } (PyVal.int 3)).samples
        = setAdd ["5", "7.5"] (pyStr (PyVal.int 3))) :=
  ⟨C6_int_float_promotion.1 _ _ rfl rfl, C6_int_float_promotion.2.1 _ _ rfl rfl⟩

/-- C7 (counterexample): the claim as stated is false — "text_representation"
can be a key of the metadata listing (it is an actual field of every
sycamore record) and does not start with "properties.", so per the claim it
should never appear in the output, yet the output always contains the
synthetic entry under exactly that key. -/
theorem C7_counterexample :
    pyStartsWith "text_representation" "properties." = false ∧
    "text_representation" ∈ ["text_representation"] ∧
    (∃ f, ("text_representation", f) ∈
      (get_schema ["text_representation"] []).1.fields) :=
  ⟨by decide, by decide, ⟨text_representation_field, by decide⟩⟩

/-- C7 (amended): every key ending in ".keyword" or not starting with
"properties." contributes no sampled entry: other than the synthetic key
"text_representation" (which is present unconditionally, not from
sampling), such a key never appears in the output Schema; its rejection is
decided from the key alone, independently of all other keys, and is silent
(the result is returned normally without it). -/
theorem C7_filtering (listing : List String) (sample : List SampleRecord)
    (key : String)
    (hfilter : pyEndsWith key ".keyword" = true ∨
      pyStartsWith key "properties." = false)
    (hsynth : key ≠ "text_representation") :
    ∀ f, (key, f) ∉ (get_schema listing sample).1.fields := by
  intro f hf
  have hmem : ∃ g, (key, g) ∈ (get_schema listing sample).1.fields := ⟨f, hf⟩
  simp only [get_schema] at hmem
  rw [processKeys_mem_iff] at hmem
  rcases hmem with ⟨g, hg⟩ | ⟨_, ⟨he, hs⟩, _⟩
  · simp only [List.mem_singleton, Prod.mk.injEq] at hg
    exact hsynth hg.1
  · rcases hfilter with h | h
    · rw [he] at h
      exact Bool.false_ne_true h
    · rw [hs] at h
      exact Bool.true_eq_false ▸ h

/-- C7 witness: the amended filtering at concrete keys — a ".keyword" key
listed in the metadata never appears in the output. -/
theorem C7_filtering_witness :
    ("properties.name.keyword", text_representation_field) ∉
      (get_schema ["properties.name.keyword", "properties.name"] ageSample).1.fields ∧
    ("_internal", text_representation_field) ∉
      (get_schema ["_internal"] ageSample).1.fields :=
  ⟨C7_filtering ["properties.name.keyword", "properties.name"] ageSample
      "properties.name.keyword" (Or.inl (by decide)) (by decide)
      text_representation_field,
   C7_filtering ["_internal"] ageSample "_internal" (Or.inr (by decide)) (by decide)
      text_representation_field⟩

/-- C8: the output of get_schema always contains the synthetic full-text
entry under the key "text_representation", with type "<class 'str'>", the
fixed description, and no examples, whatever the listing and the sample;
it is present from initialization and no sampled entry ever overwrites it
(sampled keys all start with "properties."). -/
theorem C8_synthetic_field (listing : List String) (sample : List SampleRecord) :
    List.lookup "text_representation" (get_schema listing sample).1.fields =
      some text_representation_field ∧
    text_representation_field.field_type = "<class 'str'>" ∧
    text_representation_field.description =
      some "Can be assumed to have all other details" ∧
    text_representation_field.examples = none := by
  refine ⟨?_, rfl, rfl, rfl⟩
  simp only [get_schema]
  rw [processKeys_lookup_preserved sample listing _ "text_representation" (by decide)]
  rfl

/-- C9: to_schema rebuilds, entry by entry, a SchemaField from the pydantic
attribute dictionary of the stored field with the map key injected under
"name"; the result is exactly the stored field with its name attribute
replaced by the map key — one output SchemaField per input mapping entry,
all other attributes untouched. -/
theorem C9_to_schema_rekey (s : OpenSearchSchema) :
    s.to_schema.fields = rekeyedFieldsSpec s := by
  unfold OpenSearchSchema.to_schema rekeyedFieldsSpec
  refine List.map_congr_left ?_
  rintro ⟨k, f⟩ _
  rfl

lemma local_execute_go_eq (limit count : Int) (docs : List Doc) :
    local_execute_go limit count docs =
      (docs.filter (fun d => !d.isMetadataDocument)).take (limit - count).toNat := by
  induction docs generalizing count with
  | nil => simp [local_execute_go]
  | cons doc rest ih =>
      unfold local_execute_go
      by_cases hm : doc.isMetadataDocument = true
      · rw [if_pos hm, ih]
        simp [List.filter_cons, hm]
      · rw [if_neg hm]
        by_cases hc : limit < count + 1
        · rw [if_pos hc]
          have h0 : (limit - count).toNat = 0 := by omega
          simp [List.filter_cons, hm, h0]
        · rw [if_neg hc]
          rw [ih]
          have h1 : (limit - count).toNat = (limit - (count + 1)).toNat + 1 := by omega
          simp [List.filter_cons, hm, h1]

/-- C10: Limit.local_execute returns exactly the first limit documents of
the subsequence of non-metadata inputs, in their original order: the output
has at most limit entries, is a prefix of that subsequence, and contains no
MetadataDocument — metadata documents are neither counted against the
limit nor returned. -/
theorem C10_local_execute (limit : Int) (all_docs : List Doc) :
    local_execute limit all_docs =
      (all_docs.filter (fun d => !d.isMetadataDocument)).take limit.toNat ∧
    (local_execute limit all_docs).length ≤ limit.toNat ∧
    (∃ t, local_execute limit all_docs ++ t =
      all_docs.filter (fun d => !d.isMetadataDocument)) ∧
    ∀ d ∈ local_execute limit all_docs, d.isMetadataDocument = false := by
  have heq : local_execute limit all_docs =
      (all_docs.filter (fun d => !d.isMetadataDocument)).take limit.toNat := by
    unfold local_execute
    rw [local_execute_go_eq]
    norm_num
  refine ⟨heq, ?_, ?_, ?_⟩
  · rw [heq, List.length_take]
    exact Nat.min_le_left _ _
  · rw [heq]
    exact ⟨_, List.take_append_drop _ _⟩
  · intro d hd
    rw [heq] at hd
    have hmem := List.take_subset _ _ hd
    have := List.of_mem_filter hmem
    simpa using this
